import Mathlib

/-!
Shallow embedding of the matching-and-reconciliation core of the
immich-takeout repository (files `immich_takeout/metadata_matching.py`,
`immich_takeout/process_files.py`, `immich_takeout/local_file.py`).

Filenames are modelled as lists of characters (`FName`), Python dictionaries
as association lists with unique keys (`Dict`), and Python `datetime` values
as a linearised wall-clock second count together with an optional fixed UTC
offset in minutes (`PyDateTime`).  Fallible Python code (statements that can
raise `ValueError` / `KeyError` / `TypeError`) is modelled with `Option`:
`none` is an uncaught exception.
-/

namespace ImmichTakeout

/-- Filenames and path strings are lists of characters. -/
abbrev FName := List Char

/-- Converts a Lean string literal to the character-list representation. -/
def s2l (s : String) : FName := s.data

/-- Python `str.endswith(sfx)`. -/
def endsW (sfx l : FName) : Bool := sfx.isSuffixOf l

/-- Python `sub in s` (substring containment). -/
def hasSub (sub l : FName) : Bool :=
  match l with
  | [] => sub.isPrefixOf ([] : FName)
  | _ :: xs => sub.isPrefixOf l || hasSub sub xs

/-- Python `c in s` for a single character. -/
def hasChar (c : Char) (l : FName) : Bool := l.contains c

/-- Index of the last occurrence of `c` in `l` (Python `str.rfind`), if any. -/
def rfindIdx (c : Char) : FName → Option Nat
  | [] => none
  | x :: xs =>
    match rfindIdx c xs with
    | some i => some (i + 1)
    | none => if x = c then some 0 else none

/-- Python `str.lower()` (ASCII usage only in this code base). -/
def lowerL (l : FName) : FName := l.map Char.toLower

/-- Python `os.path.splitext` (posixpath): splits at the last dot of the last
path component, unless every character before that dot in the component is
itself a dot. -/
def splitext (p : FName) : FName × FName :=
  match rfindIdx '.' p with
  | none => (p, [])
  | some di =>
    let si : Nat :=
      match rfindIdx '/' p with
      | none => 0
      | some s => s + 1
    if ((p.drop si).take (di - si)).any (fun c => c ≠ '.') then
      (p.take di, p.drop di)
    else (p, [])

/-- Python `os.path.basename` (posixpath). -/
def basename (p : FName) : FName :=
  match rfindIdx '/' p with
  | none => p
  | some i => p.drop (i + 1)

/-- Removes trailing slashes (Python `str.rstrip("/")`). -/
def rstripSlash (l : FName) : FName :=
  (l.reverse.dropWhile (fun c => c = '/')).reverse

/-- Python `os.path.dirname` (posixpath). -/
def dirname (p : FName) : FName :=
  let i : Nat :=
    match rfindIdx '/' p with
    | none => 0
    | some j => j + 1
  let head := p.take i
  if head ≠ [] ∧ ¬ head.all (fun c => c = '/') then rstripSlash head else head

/-- Python `os.path.join(a, b)` (posixpath, two arguments). -/
def pathJoin (a b : FName) : FName :=
  if b.head? = some '/' then b
  else if a = [] ∨ endsW (s2l "/") a then a ++ b
  else a ++ '/' :: b

/-- Python slice `l[:k]` where `k` may be negative. -/
def pySliceTo (l : FName) (k : Int) : FName :=
  if k < 0 then l.take ((l.length : Int) + k).toNat else l.take k.toNat

/-- Python `s.rsplit("(", 1)` unpacked into two names; `none` models the
`ValueError` raised when `"("` does not occur. -/
def rsplitParen (l : FName) : Option (FName × FName) :=
  match rfindIdx '(' l with
  | none => none
  | some i => some (l.take i, l.drop (i + 1))

/-- Python `s.split(")", 1)` unpacked into two names; `none` models the
`ValueError` raised when `")"` does not occur. -/
def splitParenClose (l : FName) : Option (FName × FName) :=
  match l.findIdx? (fun c => c = ')') with
  | none => none
  | some i => some (l.take i, l.drop (i + 1))

end ImmichTakeout

namespace ImmichTakeout

example : s2l ".json" = ['.', 'j', 's', 'o', 'n'] := by decide

example : splitext (s2l "a/b.jpg") = (s2l "a/b", s2l ".jpg") := by decide

example : splitext (s2l "a/.jpg") = (s2l "a/.jpg", s2l "") := by decide

example : basename (s2l "a/b/c.jpg") = s2l "c.jpg" := by decide

example : dirname (s2l "a/b/c.jpg") = s2l "a/b" := by decide

example : pathJoin (s2l "a/b") (s2l "c.jpg") = s2l "a/b/c.jpg" := by decide

example : pySliceTo (s2l "abcdef") (-2) = s2l "abcd" := by decide

example : rsplitParen (s2l "a(1).jpg") = some (s2l "a", s2l "1).jpg") := by decide

/-! Python dictionaries, modelled as association lists.  Insertion replaces
the value in place when the key is already bound (as a Python `dict` does),
so reachable dictionaries bind each key at most once; deletion removes every
binding of the key, which coincides with Python `del` on such dictionaries,
and fails (`none`, a `KeyError`) when the key is absent. -/

/-- Association-list model of a Python `dict` keyed by filenames. -/
abbrev Dict (α : Type) := List (FName × α)

/-- Looks a key up (Python `d[k]` / `d.get(k)`), returning the first binding. -/
def dlookup {α : Type} (d : Dict α) (k : FName) : Option α :=
  match d with
  | [] => none
  | (k0, v) :: rest => if k0 = k then some v else dlookup rest k

/-- Python `k in d`. -/
def dcontains {α : Type} (d : Dict α) (k : FName) : Bool :=
  (dlookup d k).isSome

/-- Python `d[k] = v`: replaces in place, or appends a new binding. -/
def dictInsert {α : Type} (d : Dict α) (k : FName) (v : α) : Dict α :=
  match d with
  | [] => [(k, v)]
  | p :: rest => if p.1 = k then (k, v) :: rest else p :: dictInsert rest k v

/-- Removes every binding of `k`. -/
def filterOut {α : Type} (k : FName) : Dict α → Dict α
  | [] => []
  | p :: rest => if p.1 = k then filterOut k rest else p :: filterOut k rest

/-- Python `del d[k]`: `none` is the `KeyError` raised when `k` is absent. -/
def pyDel {α : Type} (d : Dict α) (k : FName) : Option (Dict α) :=
  if dcontains d k then some (filterOut k d) else none

/-! The sidecar JSON data model (`local_file.py` and the fields consumed by
`metadata_matching.py`).  JSON numbers are modelled as rationals, the epoch
timestamp string `photoTakenTime.timestamp` as the integer it parses to, and
presence of the `googlePhotosOrigin.fromPartnerSharing` key as a boolean. -/

/-- One of the two geo objects of a sidecar record (`geoData`/`geoDataExif`). -/
structure GeoData where
  latitude : Rat
  longitude : Rat
deriving DecidableEq, Repr

/-- The `googlePhotosOrigin` object; only membership of the
`fromPartnerSharing` key is ever consulted. -/
structure GPhotosOrigin where
  fromPartnerSharingPresent : Bool
deriving DecidableEq, Repr

/-- A parsed sidecar JSON payload (the fields the core reads). -/
structure TakeoutMetadata where
  title : Option FName
  photoTakenTime : Option Int
  geoData : Option GeoData
  geoDataExif : Option GeoData
  googlePhotosOrigin : Option GPhotosOrigin
deriving DecidableEq, Repr

/-! Functions of `metadata_matching.py`. -/

/-- Embeds `normalise_filename` (metadata_matching.py:14): strips a `.json`
suffix, then moves a duplicate-numbering marker `(<N>)` in front of the
original extension.  `none` models the `ValueError` of `rsplit` when the name
ends in `)` but contains no `(`. -/
def normalise_filename (filename0 : FName) : Option (FName × Bool) :=
  let p : FName × Bool :=
    if endsW (s2l ".json") filename0 then ((splitext filename0).1, true)
    else (filename0, false)
  let filename := p.1
  let was_metadata := p.2
  if ¬ endsW (s2l ")") filename then some (filename, was_metadata)
  else
    match rsplitParen filename with
    | none => none
    | some (base, remainder) =>
      let q := splitext base
      some (q.1 ++ '(' :: remainder ++ q.2, was_metadata)

/-- Embeds `extract_number_from_filename` (metadata_matching.py:33): recovers
the `(<N>)` numbering marker of a name, or the empty string when there is
none.  `none` models the `ValueError` of `rsplit`. -/
def extract_number_from_filename (filename : FName) : Option FName :=
  if ¬ endsW (s2l ")") filename ∧ ¬ hasSub (s2l ").") filename then some []
  else
    match rsplitParen filename with
    | none => none
    | some (_, remainder0) =>
      let remainder :=
        if hasChar '.' remainder0 then (splitext remainder0).1 else remainder0
      some ('(' :: remainder)

/-- Embeds `rebuild_numbered_filename` (metadata_matching.py:42): moves a
numbering marker from before an extension to after a different extension,
e.g. `test(2).MP` to `test.MP(2).jpg`.  `none` models the `ValueError` of
`rsplit` / `split`. -/
def rebuild_numbered_filename (filename number new_ext : FName) : Option FName :=
  match rsplitParen filename with
  | none => none
  | some (base, remainder) =>
    match splitParenClose remainder with
    | none => none
    | some (_, original_extension) =>
      some (base ++ original_extension ++ number ++ new_ext)

/-- Embeds `fix_truncated_name` (metadata_matching.py:52): rebuilds a key
whose on-disk name was truncated to the exporter's 90-character budget from
the sidecar `title`.  `none` models the `KeyError` on a missing `title` and
the `ValueError` of the numbering-marker recovery. -/
def fix_truncated_name (filename : FName) (metadata : TakeoutMetadata) :
    Option FName :=
  match metadata.title with
  | none => none
  | some original_filename =>
    if basename filename ≠ original_filename ∧ 85 ≤ filename.length then
      match extract_number_from_filename filename with
      | none => none
      | some numbered_mark =>
        let q := splitext original_filename
        let dn := dirname filename
        some (pathJoin dn
          (pySliceTo q.1 ((90 : Int) - dn.length - q.2.length - 1)
            ++ numbered_mark ++ q.2))
    else some filename

example :
    normalise_filename
      (s2l "Takeout/Google Photos/Photos from 2022/PXL_20221220_060913910.jpg(1).json") =
    some (s2l "Takeout/Google Photos/Photos from 2022/PXL_20221220_060913910(1).jpg", true) := by
  decide

example :
    normalise_filename
      (s2l "Takeout/Google Photos/Photos from 2022/PXL_20221220_060913910(1).jpg") =
    some (s2l "Takeout/Google Photos/Photos from 2022/PXL_20221220_060913910(1).jpg", false) := by
  decide

example :
    fix_truncated_name
      (s2l "Takeout/Google Photos/Photos from 2023/story_image_v2_336d088f-fbe5-43a1-b765-58c29b9")
      ⟨some (s2l "story_image_v2_336d088f-fbe5-43a1-b765-58c29b9a5b2f_640_wide.jpg"),
        none, none, none, none⟩ =
    some (s2l "Takeout/Google Photos/Photos from 2023/story_image_v2_336d088f-fbe5-43a1-b765-58c29b9a.jpg") := by
  decide

example :
    fix_truncated_name
      (s2l "Takeout/Google Photos/Photos from 2023/story_video_10719a13-534f-4c77-9fe7-0a92a3186d(1)")
      ⟨some (s2l "story_video_10719a13-534f-4c77-9fe7-0a92a3186da5_720_high.mp4"),
        none, none, none, none⟩ =
    some (s2l "Takeout/Google Photos/Photos from 2023/story_video_10719a13-534f-4c77-9fe7-0a92a3186da(1).mp4") := by
  decide

/-! Embedding of `cleanup_motion_videos` (metadata_matching.py:81).  The
Python loop iterates over a snapshot of the keys and only ever deletes the
key being visited, so it is a fold of a per-key step over the key list. -/

/-- The still-image sibling name computed in the Samsung (`.mp4`) branch of
the cleanup loop: move the numbering marker of a numbered stem, else append
`.jpg` to the stem.  `none` models the `ValueError` of the rebuild. -/
def mp4Sibling (fname : FName) : Option FName :=
  if endsW (s2l ")") fname ∧ hasChar '(' fname then
    match extract_number_from_filename fname with
    | none => none
    | some number => rebuild_numbered_filename fname number (s2l ".jpg")
  else some (fname ++ s2l ".jpg")

/-- The still-image sibling name computed in the Google-pixel (`.MP`) branch
of the cleanup loop: like `mp4Sibling` but rebuilt from / appended to the
full name rather than the stem. -/
def mpSibling (full_fname fname : FName) : Option FName :=
  if endsW (s2l ")") fname ∧ hasChar '(' fname then
    match extract_number_from_filename fname with
    | none => none
    | some number => rebuild_numbered_filename full_fname number (s2l ".jpg")
  else some (full_fname ++ s2l ".jpg")

/-- The shared shape of the two motion-photo branches of the cleanup loop:
when the extension condition holds, compute the sibling name (`none` is a
`ValueError`) and delete the visited key if the sibling was matched. -/
def motionPhase {α : Type} (cond : Bool) (sib : Option FName)
    (seen : List FName) (d : Dict α) (full_fname : FName) : Option (Dict α) :=
  match cond, sib with
  | false, _ => some d
  | true, none => none
  | true, some jpeg_name =>
    if jpeg_name ∈ seen then pyDel d full_fname else some d

/-- One iteration of the `cleanup_motion_videos` loop for the key
`full_fname`.  `none` models an uncaught `ValueError` (from the numbered
rebuild) or `KeyError` (a second `del` of the same key). -/
def motionStep {α : Type} (seen : List FName) (d : Dict α) (full_fname : FName) :
    Option (Dict α) :=
  let q := splitext full_fname
  let fname := q.1
  let ext := q.2
  match motionPhase (lowerL ext = s2l ".mp4") (mp4Sibling fname)
      seen d full_fname with
  | none => none
  | some d1 =>
    match motionPhase
        (ext = s2l ".MP" ∨ ext = s2l ".MP " ∨ (s2l ".MP~").isPrefixOf ext)
        (mpSibling full_fname fname) seen d1 full_fname with
    | none => none
    | some d2 =>
      if endsW (s2l "-edited") fname then pyDel d2 full_fname else some d2

/-- Embeds `cleanup_motion_videos` (metadata_matching.py:81): drops leftover
motion-photo companions of already-matched stills and `-edited` variants. -/
def cleanup_motion_videos {α : Type} (tar_infos : Dict α) (seen : List FName) :
    Option (Dict α) :=
  (tar_infos.map Prod.fst).foldlM (motionStep seen) tar_infos

/-- Embeds `match_files` (metadata_matching.py:116): exact-key join with one
direction-dependent fallback (append `.jpg` for an extensionless metadata
key, strip the extension for a media key). -/
def match_files {α β : Type} (was_metadata : Bool) (filename : FName)
    (tar_infos : Dict α) (metadata : Dict β) : Option α × Option β :=
  if dcontains tar_infos filename ∧ dcontains metadata filename then
    (dlookup tar_infos filename, dlookup metadata filename)
  else if was_metadata = true ∧ (splitext filename).2 = [] ∧
      dcontains metadata filename ∧
      dcontains tar_infos (filename ++ s2l ".jpg") then
    (dlookup tar_infos (filename ++ s2l ".jpg"), dlookup metadata filename)
  else if was_metadata = false ∧ (splitext filename).2 ≠ [] ∧
      dcontains metadata (splitext filename).1 ∧
      dcontains tar_infos filename then
    (dlookup tar_infos filename, dlookup metadata (splitext filename).1)
  else (none, none)

/-! The streaming matcher `extract_metadata` (metadata_matching.py:137),
as a state machine folded over archive entries.  Progress logging is pure
console output and is omitted; the `Report` collaborator is modelled as the
list of calls made to it. -/

/-- An archive entry: its raw name and, for entries extracted as sidecars,
the result of `json.load` (`none` models a fatal JSON parse error). -/
structure TarEntry where
  name : FName
  payload : Option TakeoutMetadata
deriving DecidableEq, Repr

/-- A pending metadata record: the parsed payload plus the bookkeeping
fields (`tar_name`, `metadata_filename`) the matcher stamps onto it. -/
structure StoredMeta where
  data : TakeoutMetadata
  tar_name : FName
  metadata_filename : FName
deriving DecidableEq, Repr

/-- A pending media entry: the archive it came from and the entry itself. -/
structure TarInfoVal where
  tarName : FName
  entry : TarEntry
deriving DecidableEq, Repr

/-- The fields of an emitted `LocalFile` that the matching stage determines:
the joined metadata record, the raw archive name of the media entry, and the
archive the media entry came from. -/
structure MatchedFile where
  takeout_metadata : StoredMeta
  tarinfo_name : FName
  tarfile_name : FName
deriving DecidableEq, Repr

/-- One call to the `Report` collaborator made by the matching stage. -/
inductive ReportEvent where
  | matched (f : MatchedFile)
  | hangingMetadata (metadata : Dict StoredMeta)
  | hangingFiles (tar_infos : Dict TarInfoVal)
deriving DecidableEq, Repr

/-- The matcher's state: the two pending maps, the matched-key set, the
assets yielded so far, and the report calls made so far. -/
structure MatchState where
  metadata : Dict StoredMeta
  seen : List FName
  tar_infos : Dict TarInfoVal
  emitted : List MatchedFile
  reports : List ReportEvent
deriving DecidableEq, Repr

/-- The storage half of one loop iteration of `extract_metadata`
(metadata_matching.py:162-173): parse and store a sidecar under its
truncation-corrected key, or store a media entry under its normalised key.
Returns the updated state and the (possibly corrected) key. -/
def storePhase (st : MatchState) (tar_name : FName) (e : TarEntry)
    (filename : FName) (was_metadata : Bool) : Option (MatchState × FName) :=
  if was_metadata then
    match e.payload with
    | none => none
    | some data =>
      match fix_truncated_name filename data with
      | none => none
      | some fn2 =>
        some ({ st with
          metadata := dictInsert st.metadata fn2 ⟨data, tar_name, fn2⟩ }, fn2)
  else
    some ({ st with
      tar_infos := dictInsert st.tar_infos filename ⟨tar_name, e⟩ }, filename)

/-- The join half of one loop iteration of `extract_metadata`
(metadata_matching.py:180-192): emit the joined asset, then delete both
sides (`del tar_infos[data_file_tarinfo.name]` uses the raw archive name),
mark the key as seen and report the match.  `none` models a `KeyError`. -/
def joinPhase (st : MatchState) (filename : FName) (tv : TarInfoVal)
    (md : StoredMeta) : Option MatchState :=
  let lf : MatchedFile := ⟨md, tv.entry.name, tv.tarName⟩
  let st1 := { st with emitted := st.emitted ++ [lf] }
  match pyDel st1.tar_infos tv.entry.name with
  | none => none
  | some ti2 =>
    match pyDel st1.metadata md.metadata_filename with
    | none => none
    | some md2 =>
      some { st1 with
        tar_infos := ti2
        metadata := md2
        seen := if filename ∈ st1.seen then st1.seen else st1.seen ++ [filename]
        reports := st1.reports ++ [ReportEvent.matched lf] }

/-- One full loop iteration of `extract_metadata` (metadata_matching.py:158-192)
for the entry `e` of the archive `tar_name`. -/
def processEntry (skip : List FName) (tar_name : FName) (st : MatchState)
    (e : TarEntry) : Option MatchState :=
  match normalise_filename e.name with
  | none => none
  | some (filename, was_metadata) =>
    if filename ∈ skip ∨ endsW (s2l "archive_browser.html") filename then some st
    else
      match storePhase st tar_name e filename was_metadata with
      | none => none
      | some (st1, fn1) =>
        match match_files was_metadata fn1 st1.tar_infos st1.metadata with
        | (some tv, some md) => joinPhase st1 fn1 tv md
        | _ => some st1

/-- Embeds the whole of `extract_metadata` (metadata_matching.py:137-206):
folds the per-entry step over every archive, then runs the motion-video
cleanup and reports the dangling maps. -/
def runMatcher (skip : List FName) (tars : List (FName × List TarEntry)) :
    Option MatchState := do
  let st0 : MatchState := ⟨[], [], [], [], []⟩
  let st ← tars.foldlM
    (fun st t => t.2.foldlM (processEntry skip t.1) st) st0
  let ti ← cleanup_motion_videos st.tar_infos st.seen
  let st := { st with tar_infos := ti }
  let st :=
    if st.metadata ≠ [] then
      { st with reports := st.reports ++ [ReportEvent.hangingMetadata st.metadata] }
    else st
  let st :=
    if st.tar_infos ≠ [] then
      { st with reports := st.reports ++ [ReportEvent.hangingFiles st.tar_infos] }
    else st
  pure st

/-! Python `datetime` model.  A naive datetime is its wall-clock fields
linearised to seconds of the proleptic Gregorian calendar (`civilSecs`); an
aware datetime additionally carries a fixed UTC offset in minutes
(`pytz.FixedOffset`).  Named time zones, which enter only through the
external `tzwhere` oracle, stay abstract. -/

/-- Days since 1970-01-01 of a proleptic Gregorian civil date. -/
def daysFromCivil (y m d : Int) : Int :=
  let y1 := if m ≤ 2 then y - 1 else y
  let era := Int.fdiv y1 400
  let yoe := y1 - era * 400
  let doy := Int.fdiv (153 * (if 2 < m then m - 3 else m + 9) + 2) 5 + d - 1
  let doe := yoe * 365 + Int.fdiv yoe 4 - Int.fdiv yoe 100 + doy
  era * 146097 + doe - 719468

/-- Linearisation of naive wall-clock datetime fields to seconds. -/
def civilSecs (y m d h mi s : Int) : Int :=
  86400 * daysFromCivil y m d + 3600 * h + 60 * mi + s

/-- A Python `datetime`: linearised wall-clock seconds plus the fixed UTC
offset in minutes of its `tzinfo`, if aware. -/
structure PyDateTime where
  wall : Int
  off : Option Int
deriving DecidableEq, Repr

/-- The instant (in UTC seconds) an aware datetime denotes. -/
def instant (d : PyDateTime) : Int := d.wall - 60 * d.off.getD 0

/-- Python `pytz.utc.localize`: attaches the zero offset to a naive value. -/
def utcLocalize (d : PyDateTime) : PyDateTime := { d with off := some 0 }

/-- Python `d.astimezone(FixedOffset o)` for an aware `d`. -/
def astimezoneFixed (d : PyDateTime) (o : Int) : PyDateTime :=
  { wall := instant d + 60 * o, off := some o }

/-- Python `==` on datetimes: two naive values compare by wall clock, two
aware values by instant, and a naive value never equals an aware one. -/
def pyEq (a b : PyDateTime) : Bool :=
  match a.off, b.off with
  | none, none => a.wall = b.wall
  | some _, some _ => instant a = instant b
  | _, _ => false

/-- Python `a != b` where `a : datetime | None` (`None` is unequal to any
datetime). -/
def pyNeOpt (a : Option PyDateTime) (b : PyDateTime) : Bool :=
  match a with
  | none => true
  | some a0 => ! pyEq a0 b

/-- Embeds `calculate_timezone` (process_files.py:78): infers a fixed offset
as `floor(exif-offset-minutes) - floor((metadata - exif) in minutes)` and
attaches it to the naive wall clock of the embedded time. -/
def calculate_timezone (exif_time metadata_time : PyDateTime) : PyDateTime :=
  let guess := Int.fdiv (60 * exif_time.off.getD 0) 60 -
    Int.fdiv (instant metadata_time - instant exif_time) 60
  { wall := exif_time.wall, off := some guess }

/-- Embeds `check_timestamp_exif` (process_files.py:87).  The external
`tzwhere`/`pytz` named-zone machinery is abstracted: `find_tz` looks a zone
up from coordinates and `astz` is `astimezone` into such a zone.  The second
component is the returned datetime (`none` can only echo an absent embedded
time out of the equal branch). -/
def check_timestamp_exif {G Z : Type} (find_tz : G → Option Z)
    (astz : Z → PyDateTime → PyDateTime) (exif_time : Option PyDateTime)
    (exif_gps : Option G) (metadata_time : PyDateTime) :
    Bool × Option PyDateTime :=
  if pyNeOpt exif_time metadata_time then
    match exif_time with
    | none =>
      (true, some (match exif_gps.bind find_tz with
        | some z => astz z metadata_time
        | none => metadata_time))
    | some et =>
      if et.off.isNone ∧
          (instant (utcLocalize et) - instant metadata_time).natAbs ≤ 43200 then
        (true, some (calculate_timezone (utcLocalize et) metadata_time))
      else if et.off.isSome then
        (true, some (astimezoneFixed metadata_time (et.off.getD 0)))
      else
        (true, some (match exif_gps.bind find_tz with
          | some z => astz z metadata_time
          | none => metadata_time))
  else (false, exif_time)

/-! Accessors of `LocalFile` (local_file.py) consumed by the processing
stage. -/

/-- Embeds `LocalFile.is_from_partner_sharing` (local_file.py:46):
membership of the `fromPartnerSharing` key in `googlePhotosOrigin`. -/
def is_from_partner_sharing (md : TakeoutMetadata) : Bool :=
  match md.googlePhotosOrigin with
  | some o => o.fromPartnerSharingPresent
  | none => false

/-- Embeds `LocalFile.metadata_original_timestamp` (local_file.py:52): the
sidecar capture time as an aware UTC datetime, if present. -/
def metadata_original_timestamp (md : TakeoutMetadata) : Option PyDateTime :=
  md.photoTakenTime.map (fun ts => { wall := ts, off := some 0 })

/-- Embeds `LocalFile.metadata_gps` (local_file.py:60): geo coordinates from
`geoData` when its latitude is truthy, else from `geoDataExif` when its
latitude is truthy, else nothing. -/
def metadata_gps (md : TakeoutMetadata) : Option (Rat × Rat) :=
  match md.geoData with
  | some g =>
    if g.latitude ≠ 0 then some (g.latitude, g.longitude)
    else
      match md.geoDataExif with
      | some g2 => if g2.latitude ≠ 0 then some (g2.latitude, g2.longitude) else none
      | none => none
  | none =>
    match md.geoDataExif with
    | some g2 => if g2.latitude ≠ 0 then some (g2.latitude, g2.longitude) else none
    | none => none

/-! The processing stage `process_files` (process_files.py:21), folded over
the matched assets.  Reading EXIF bytes out of the media payload is external
binary parsing, abstracted as the oracle `exif_load`: `none` models the
caught `ValueError`/`TypeError` of `piexif.load`, and a successful load is
summarised by the embedded capture time and GPS pair extracted from it. -/

/-- A matched asset as the processing stage sees it (the `LocalFile` fields
it reads and writes). -/
structure PFile where
  takeout_metadata : TakeoutMetadata
  name : FName
  last_modified : PyDateTime
  gps : Option (Rat × Rat)
  exif_original_time : Option PyDateTime
  original_time : Option PyDateTime
  timestamp_differs : Bool
deriving DecidableEq, Repr

/-- Embeds `LocalFile.file_extension` (local_file.py:74). -/
def file_extension (f : PFile) : FName := (splitext f.name).2

/-- What `extract_exif_date` and `extract_exif_gps` produce from a
successfully loaded EXIF blob. -/
structure ExifView where
  date : Option PyDateTime
  gps : Option (Rat × Rat)
deriving DecidableEq, Repr

/-- One call to the `Report` collaborator made by the processing stage. -/
inductive PEvent where
  | partnerSharing (f : PFile)
  | unsupportedExtension (f : PFile)
deriving DecidableEq, Repr

/-- One iteration of the `process_files` loop (process_files.py:24-68):
returns the assets yielded and the report calls made for this item.  `none`
models an uncaught exception (`.isoformat()` or datetime arithmetic on a
missing sidecar time). -/
def process_one {Z : Type} (find_tz : Rat × Rat → Option Z)
    (astz : Z → PyDateTime → PyDateTime) (exif_load : PFile → Option ExifView)
    (item : PFile) : Option (List PFile × List PEvent) :=
  if is_from_partner_sharing item.takeout_metadata then
    some ([], [PEvent.partnerSharing item])
  else
    let metadata_time := metadata_original_timestamp item.takeout_metadata
    if lowerL (file_extension item) ∉ [s2l ".jpeg", s2l ".jpg"] then
      let item1 :=
        if pyNeOpt metadata_time item.last_modified then
          { item with timestamp_differs := true }
        else item
      if lowerL (file_extension item) ∈ [s2l ".vob", s2l ".thm"] then
        some ([], [PEvent.unsupportedExtension item1])
      else
        match metadata_time with
        | none => none
        | some _ => some ([item1], [])
    else
      match exif_load item with
      | none => some ([item], [])
      | some ev =>
        match metadata_time with
        | none => none
        | some mt =>
          let gps := (metadata_gps item.takeout_metadata).orElse (fun _ => ev.gps)
          match check_timestamp_exif find_tz astz ev.date gps mt with
          | (differs, some new_timestamp) =>
            some ([{ item with
              gps := gps
              exif_original_time := ev.date
              original_time := some new_timestamp
              timestamp_differs := differs }], [])
          | (_, none) => none

/-- Embeds `process_files` (process_files.py:21): the per-item step folded
over the stream of matched assets, collecting yields and report calls. -/
def process_files {Z : Type} (find_tz : Rat × Rat → Option Z)
    (astz : Z → PyDateTime → PyDateTime) (exif_load : PFile → Option ExifView)
    (items : List PFile) : Option (List PFile × List PEvent) :=
  items.foldlM
    (fun acc it =>
      (process_one find_tz astz exif_load it).map
        (fun r => (acc.1 ++ r.1, acc.2 ++ r.2)))
    ([], [])

/-! Helper lemmas about the dictionary model and the string primitives. -/

theorem dlookup_filterOut_self {α : Type} (d : Dict α) (k : FName) :
    dlookup (filterOut k d) k = none := by
  induction d with
  | nil => rfl
  | cons p rest ih =>
    by_cases h : p.1 = k
    · rw [filterOut, if_pos h]; exact ih
    · rw [filterOut, if_neg h, dlookup, if_neg h]; exact ih

theorem dlookup_filterOut_ne {α : Type} (d : Dict α) (k k1 : FName)
    (h : k1 ≠ k) : dlookup (filterOut k d) k1 = dlookup d k1 := by
  induction d with
  | nil => rfl
  | cons p rest ih =>
    by_cases hp : p.1 = k
    · have hpk : p.1 ≠ k1 := fun hh => h (hh ▸ hp)
      rw [filterOut, if_pos hp, dlookup, if_neg hpk]; exact ih
    · by_cases hp1 : p.1 = k1
      · rw [filterOut, if_neg hp, dlookup, if_pos hp1, dlookup, if_pos hp1]
      · rw [filterOut, if_neg hp, dlookup, if_neg hp1, dlookup, if_neg hp1]
        exact ih

theorem dcontains_filterOut_self {α : Type} (d : Dict α) (k : FName) :
    dcontains (filterOut k d) k = false := by
  simp [dcontains, dlookup_filterOut_self]

theorem dcontains_filterOut_ne {α : Type} (d : Dict α) (k k1 : FName)
    (h : k1 ≠ k) : dcontains (filterOut k d) k1 = dcontains d k1 := by
  simp [dcontains, dlookup_filterOut_ne _ _ _ h]

theorem pyDel_some_eq {α : Type} {d d1 : Dict α} {k : FName}
    (h : pyDel d k = some d1) : d1 = filterOut k d := by
  unfold pyDel at h
  by_cases hc : dcontains d k = true
  · rw [if_pos hc] at h; exact (Option.some.inj h).symm
  · rw [if_neg hc] at h; cases h

theorem pyDel_filterOut_self {α : Type} (d : Dict α) (k : FName) :
    pyDel (filterOut k d) k = none := by
  simp [pyDel, dcontains_filterOut_self]

theorem dlookup_dictInsert_self {α : Type} (d : Dict α) (k : FName) (v : α) :
    dlookup (dictInsert d k v) k = some v := by
  induction d with
  | nil => rw [dictInsert, dlookup, if_pos rfl]
  | cons p rest ih =>
    by_cases hp : p.1 = k
    · rw [dictInsert, if_pos hp, dlookup, if_pos rfl]
    · rw [dictInsert, if_neg hp, dlookup, if_neg hp]; exact ih

theorem mem_keys_iff_dcontains {α : Type} (d : Dict α) (k : FName) :
    k ∈ d.map Prod.fst ↔ dcontains d k = true := by
  induction d with
  | nil => simp [dcontains, dlookup]
  | cons p rest ih =>
    rw [List.map_cons, List.mem_cons]
    by_cases hp : p.1 = k
    · rw [dcontains, dlookup, if_pos hp]
      exact ⟨fun _ => rfl, fun _ => Or.inl hp.symm⟩
    · have hne : ¬ (k = p.1) := fun hh => hp hh.symm
      rw [dcontains, dlookup, if_neg hp]
      simp only [hne, false_or]
      exact ih

theorem rfindIdx_reconstruct (c : Char) (l : FName) (i : Nat)
    (h : rfindIdx c l = some i) :
    l.take i ++ c :: l.drop (i + 1) = l := by
  induction l generalizing i with
  | nil => cases h
  | cons x xs ih =>
    unfold rfindIdx at h
    cases hx : rfindIdx c xs with
    | some j =>
      rw [hx] at h
      have hij : i = j + 1 := (Option.some.inj h).symm
      subst hij
      simp [List.take, List.drop]
      exact ih j hx
    | none =>
      rw [hx] at h
      by_cases hc : x = c
      · rw [if_pos hc] at h
        have : i = 0 := (Option.some.inj h).symm
        subst this
        simp [hc]
      · rw [if_neg hc] at h; cases h

theorem rsplitParen_reconstruct (l b r : FName)
    (h : rsplitParen l = some (b, r)) : b ++ '(' :: r = l := by
  unfold rsplitParen at h
  cases hf : rfindIdx '(' l with
  | none => rw [hf] at h; cases h
  | some i =>
    rw [hf] at h
    have hb : b = l.take i := by
      have := Option.some.inj h; exact (congrArg Prod.fst this).symm
    have hr : r = l.drop (i + 1) := by
      have := Option.some.inj h; exact (congrArg Prod.snd this).symm
    subst hb; subst hr
    exact rfindIdx_reconstruct '(' l i hf

/-! Characterisation of `cleanup_motion_videos`: which leftover keys it
removes.  Each loop iteration only ever deletes the key it is visiting, so a
successful run removes exactly the keys whose deletion condition holds. -/

/-- Whether a computed sibling name exists and was matched. -/
def sibMatch (sib : Option FName) (seen : List FName) : Bool :=
  match sib with
  | some j => j ∈ seen
  | none => false

/-- The Samsung clause: the key has a `.mp4` extension (case-insensitively)
and its computed still-image sibling was matched. -/
def mp4DelCond (k : FName) (seen : List FName) : Bool :=
  decide (lowerL (splitext k).2 = s2l ".mp4") &&
    sibMatch (mp4Sibling (splitext k).1) seen

/-- The Google-pixel clause: the key has a `.MP`-family extension and its
computed still-image sibling was matched. -/
def mpDelCond (k : FName) (seen : List FName) : Bool :=
  decide ((splitext k).2 = s2l ".MP" ∨ (splitext k).2 = s2l ".MP " ∨
      (s2l ".MP~").isPrefixOf (splitext k).2) &&
    sibMatch (mpSibling k (splitext k).1) seen

/-- The edited clause: the stem ends in `-edited`. -/
def editedDelCond (k : FName) : Bool := endsW (s2l "-edited") (splitext k).1

/-- A leftover key is deleted by the cleanup pass iff one of the three
clauses fires. -/
def motionDelCond (k : FName) (seen : List FName) : Bool :=
  mp4DelCond k seen || mpDelCond k seen || editedDelCond k

theorem pyDel_some_contains {α : Type} {d d1 : Dict α} {k : FName}
    (h : pyDel d k = some d1) : dcontains d k = true := by
  unfold pyDel at h
  by_cases hc : dcontains d k = true
  · exact hc
  · rw [if_neg hc] at h; cases h

theorem motionPhase_shape {α : Type} {c : Bool} {sib : Option FName}
    {seen : List FName} {d d1 : Dict α} {k : FName}
    (h : motionPhase c sib seen d k = some d1) :
    d1 = (if (c && sibMatch sib seen) = true then filterOut k d else d) ∧
      ((c && sibMatch sib seen) = true → dcontains d k = true) := by
  cases c with
  | false =>
    have hd : some d = some d1 := h
    have hd1 : d1 = d := (Option.some.inj hd).symm
    subst hd1
    exact ⟨by simp, fun hf => by simp at hf⟩
  | true =>
    cases sib with
    | none => exact Option.noConfusion h
    | some j =>
      have hstep : motionPhase true (some j) seen d k =
          if j ∈ seen then pyDel d k else some d := rfl
      rw [hstep] at h
      by_cases hm : j ∈ seen
      · rw [if_pos hm] at h
        have hfire : (true && sibMatch (some j) seen) = true := by
          simp [sibMatch, hm]
        rw [hfire]
        exact ⟨by rw [if_pos rfl]; exact pyDel_some_eq h,
          fun _ => pyDel_some_contains h⟩
      · rw [if_neg hm] at h
        have hfire : (true && sibMatch (some j) seen) = false := by
          simp [sibMatch, hm]
        rw [hfire]
        have hd1 : d1 = d := (Option.some.inj h).symm
        subst hd1
        exact ⟨by simp, fun hf => by simp at hf⟩

theorem motionStep_shape {α : Type} {seen : List FName} {d : Dict α}
    {k : FName} {d3 : Dict α} (h : motionStep seen d k = some d3) :
    d3 = if motionDelCond k seen = true then filterOut k d else d := by
  cases h1 : motionPhase (decide (lowerL (splitext k).2 = s2l ".mp4"))
      (mp4Sibling (splitext k).1) seen d k with
  | none =>
    simp only [motionStep, h1] at h
    exact Option.noConfusion h
  | some d1 =>
    simp only [motionStep, h1] at h
    obtain ⟨hd1, _⟩ := motionPhase_shape h1
    cases h2 : motionPhase
        (decide ((splitext k).2 = s2l ".MP" ∨ (splitext k).2 = s2l ".MP " ∨
          (s2l ".MP~").isPrefixOf (splitext k).2))
        (mpSibling k (splitext k).1) seen d1 k with
    | none =>
      simp only [h2] at h
      exact Option.noConfusion h
    | some d2 =>
      simp only [h2] at h
      obtain ⟨hd2, hc2⟩ := motionPhase_shape h2
      unfold motionDelCond mp4DelCond mpDelCond editedDelCond
      by_cases f1 : (decide (lowerL (splitext k).2 = s2l ".mp4") &&
          sibMatch (mp4Sibling (splitext k).1) seen) = true
      · rw [if_pos f1] at hd1
        by_cases f2 : (decide ((splitext k).2 = s2l ".MP" ∨
              (splitext k).2 = s2l ".MP " ∨
              (s2l ".MP~").isPrefixOf (splitext k).2) &&
            sibMatch (mpSibling k (splitext k).1) seen) = true
        · have hcc := hc2 f2
          rw [hd1, dcontains_filterOut_self] at hcc
          exact absurd hcc (by simp)
        · rw [if_neg f2] at hd2
          by_cases f3 : endsW (s2l "-edited") (splitext k).1 = true
          · rw [if_pos f3, hd2, hd1, pyDel_filterOut_self] at h
            exact Option.noConfusion h
          · rw [if_neg f3] at h
            have hd3 : d3 = d2 := (Option.some.inj h).symm
            rw [hd3, hd2, hd1, if_pos (by simp only [Bool.or_eq_true]; exact Or.inl (Or.inl f1))]
      · rw [if_neg f1] at hd1
        by_cases f2 : (decide ((splitext k).2 = s2l ".MP" ∨
              (splitext k).2 = s2l ".MP " ∨
              (s2l ".MP~").isPrefixOf (splitext k).2) &&
            sibMatch (mpSibling k (splitext k).1) seen) = true
        · rw [if_pos f2] at hd2
          by_cases f3 : endsW (s2l "-edited") (splitext k).1 = true
          · rw [if_pos f3, hd2, pyDel_filterOut_self] at h
            exact Option.noConfusion h
          · rw [if_neg f3] at h
            have hd3 : d3 = d2 := (Option.some.inj h).symm
            rw [hd3, hd2, hd1, if_pos (by simp only [Bool.or_eq_true]; exact Or.inl (Or.inr f2))]
        · rw [if_neg f2] at hd2
          by_cases f3 : endsW (s2l "-edited") (splitext k).1 = true
          · rw [if_pos f3] at h
            rw [pyDel_some_eq h, hd2, hd1, if_pos (by simp only [Bool.or_eq_true]; exact Or.inr f3)]
          · rw [if_neg f3] at h
            have hd3 : d3 = d2 := (Option.some.inj h).symm
            rw [hd3, hd2, hd1, if_neg (by simp only [Bool.or_eq_true]; rintro ((hf | hf) | hf); exacts [f1 hf, f2 hf, f3 hf])]

theorem motionFold_char {α : Type} (seen : List FName) :
    ∀ (names : List FName) (d dfin : Dict α),
      List.foldlM (motionStep seen) d names = some dfin →
      ∀ k, dcontains dfin k = true ↔
        (dcontains d k = true ∧ (k ∈ names → motionDelCond k seen = false)) := by
  intro names
  induction names with
  | nil =>
    intro d dfin h k
    simp only [List.foldlM_nil] at h
    have hdd : d = dfin := Option.some.inj h
    subst hdd
    simp
  | cons n ns ih =>
    intro d dfin h k
    rw [List.foldlM_cons] at h
    cases hstep : motionStep seen d n with
    | none =>
      rw [hstep] at h
      exact Option.noConfusion h
    | some d1 =>
      rw [hstep] at h
      have hrest : List.foldlM (motionStep seen) d1 ns = some dfin := h
      have hd1 := motionStep_shape hstep
      have ihk := ih d1 dfin hrest k
      by_cases hkn : k = n
      · subst hkn
        by_cases hc : motionDelCond k seen = true
        · rw [if_pos hc] at hd1
          subst hd1
          constructor
          · intro hL
            have hmp := (ihk.mp hL).1
            rw [dcontains_filterOut_self] at hmp
            exact absurd hmp (by simp)
          · rintro ⟨_, himp⟩
            have hff := himp (List.mem_cons_self _ _)
            rw [hff] at hc
            exact absurd hc (by simp)
        · rw [if_neg hc] at hd1
          subst hd1
          have hcf : motionDelCond k seen = false := by
            revert hc; cases motionDelCond k seen <;> simp
          rw [ihk]
          constructor
          · rintro ⟨hdk, _⟩
            exact ⟨hdk, fun _ => hcf⟩
          · rintro ⟨hdk, _⟩
            exact ⟨hdk, fun _ => hcf⟩
      · have hdc : dcontains d1 k = dcontains d k := by
          by_cases hc : motionDelCond n seen = true
          · rw [if_pos hc] at hd1
            subst hd1
            exact dcontains_filterOut_ne _ _ _ hkn
          · rw [if_neg hc] at hd1
            subst hd1
            rfl
        rw [ihk, hdc]
        simp only [List.mem_cons, hkn, false_or]

/-- C6 (amended): after a cleanup pass over the leftover map that completes
without an uncaught error, a key remains pending iff it was pending before
and none of the deletion clauses fired for it: the Samsung clause (`.mp4`
extension case-insensitively, numbering-adjusted or `.jpg`-substituted
sibling matched), the Google-pixel clause (`.MP` exactly, `.MP ` with a
trailing space, or a `.MP~`-prefixed extension, sibling matched — so a
leftover `foo.MP` goes iff `foo.MP.jpg` was matched and `foo(1).MP` goes iff
`foo.MP(1).jpg` was matched), or the unconditional `-edited` stem clause. -/
theorem cleanup_motion_videos_removes_iff {α : Type} (d : Dict α)
    (seen : List FName) (dfin : Dict α)
    (h : cleanup_motion_videos d seen = some dfin) (k : FName) :
    dcontains dfin k = true ↔
      (dcontains d k = true ∧ motionDelCond k seen = false) := by
  have hc := motionFold_char seen (d.map Prod.fst) d dfin h k
  rw [hc]
  constructor
  · rintro ⟨hdk, himp⟩
    exact ⟨hdk, himp ((mem_keys_iff_dcontains d k).mpr hdk)⟩
  · rintro ⟨hdk, hcond⟩
    exact ⟨hdk, fun _ => hcond⟩

example :
    cleanup_motion_videos
      [(s2l "Takeout/Google Photos/Photos from 2020/PXL_20201115_044452482.MP", ())]
      [s2l "Takeout/Google Photos/Photos from 2020/PXL_20201115_044452482.MP.jpg"] =
    some [] := by decide

example :
    cleanup_motion_videos
      [(s2l "Takeout/Google Photos/Photos from 2020/PXL_20201115_044452482(1).MP", ())]
      [s2l "Takeout/Google Photos/Photos from 2020/PXL_20201115_044452482.MP(1).jpg"] =
    some [] := by decide

/-- C6 (counterexample): the cleanup also removes a leftover `a.mp4` whose
sibling `a.jpg` was matched, although `a.mp4` has neither a `.MP`-family
extension nor an `-edited` stem — so entries outside the claim's three
categories are removed as well. -/
theorem cleanup_motion_videos_counterexample :
    cleanup_motion_videos [(s2l "a.mp4", ())] [s2l "a.jpg"] = some [] ∧
    (splitext (s2l "a.mp4")).2 ≠ s2l ".MP" ∧
    (splitext (s2l "a.mp4")).2 ≠ s2l ".MP " ∧
    (s2l ".MP~").isPrefixOf (splitext (s2l "a.mp4")).2 = false ∧
    endsW (s2l "-edited") (splitext (s2l "a.mp4")).1 = false := by
  decide

/-- C6 (witness): the amended characterisation applied to a concrete run in
which the leftover `x.MP` is removed because `x.MP.jpg` was matched. -/
theorem cleanup_motion_videos_removes_iff_witness :
    dcontains ([] : Dict Unit) (s2l "x.MP") = true ↔
      (dcontains [(s2l "x.MP", ())] (s2l "x.MP") = true ∧
        motionDelCond (s2l "x.MP") [s2l "x.MP.jpg"] = false) :=
  cleanup_motion_videos_removes_iff [(s2l "x.MP", ())] [s2l "x.MP.jpg"] []
    (by decide) (s2l "x.MP")

/-- C4: the matching step returns the exact-key pair whenever the key is in
both pending maps; only when the exact match fails is a fallback tried, and
the fallback direction is fixed by the triggering side: `.jpg` is appended
against PendingFiles only for a metadata key without extension, the
extension is stripped against PendingMetadata only for a media key with an
extension; in every remaining case nothing is matched. -/
theorem match_files_spec {α β : Type} (w : Bool) (f : FName)
    (ti : Dict α) (md : Dict β) :
    (∀ t m, dlookup ti f = some t → dlookup md f = some m →
      match_files w f ti md = (some t, some m))
  ∧ (¬ (dcontains ti f = true ∧ dcontains md f = true) →
      ∀ t m, w = true → (splitext f).2 = [] →
        dlookup md f = some m → dlookup ti (f ++ s2l ".jpg") = some t →
        match_files w f ti md = (some t, some m))
  ∧ (¬ (dcontains ti f = true ∧ dcontains md f = true) →
      ∀ t m, w = false → (splitext f).2 ≠ [] →
        dlookup md (splitext f).1 = some m → dlookup ti f = some t →
        match_files w f ti md = (some t, some m))
  ∧ (¬ (dcontains ti f = true ∧ dcontains md f = true) →
      ¬ (w = true ∧ (splitext f).2 = [] ∧ dcontains md f = true ∧
         dcontains ti (f ++ s2l ".jpg") = true) →
      ¬ (w = false ∧ (splitext f).2 ≠ [] ∧ dcontains md (splitext f).1 = true ∧
         dcontains ti f = true) →
      match_files w f ti md = (none, none)) := by
  refine ⟨?_, ?_, ?_, ?_⟩
  · intro t m ht hm
    unfold match_files
    rw [if_pos ⟨by simp [dcontains, ht], by simp [dcontains, hm]⟩, ht, hm]
  · intro hexact t m hw hext hm ht
    unfold match_files
    rw [if_neg hexact,
      if_pos ⟨hw, hext, by simp [dcontains, hm], by simp [dcontains, ht]⟩,
      ht, hm]
  · intro hexact t m hw hext hm ht
    unfold match_files
    rw [if_neg hexact, if_neg, if_pos ⟨hw, hext, by simp [dcontains, hm],
      by simp [dcontains, ht]⟩, ht, hm]
    rintro ⟨hw1, _⟩
    rw [hw] at hw1
    exact Bool.noConfusion hw1
  · intro hexact hfb1 hfb2
    unfold match_files
    rw [if_neg hexact, if_neg hfb1, if_neg hfb2]

/-- C4 (witness): the exact-match conjunct applied to concrete one-entry
maps. -/
theorem match_files_spec_witness :
    match_files true (s2l "a.jpg") [(s2l "a.jpg", 0)] [(s2l "a.jpg", 1)] =
      (some 0, some 1) :=
  (match_files_spec true (s2l "a.jpg") [(s2l "a.jpg", 0)]
    [(s2l "a.jpg", 1)]).1 0 1 (by decide) (by decide)

/-- C5 (counterexample): on an 85-character key that ends in `)` but
contains no `(`, with a sidecar title different from its basename, the
rebuild's numbering-marker recovery faults (`rsplit` raises `ValueError`),
so the function returns nothing instead of the rebuilt name. -/
theorem fix_truncated_name_counterexample :
    fix_truncated_name (List.replicate 84 'a' ++ [')'])
      ⟨some (s2l "t.jpg"), none, none, none, none⟩ = none := by
  decide

/-- C5 (amended): the recoverer returns the key unchanged whenever the
key's basename equals the sidecar title or the key is shorter than 85
characters; otherwise, provided the numbering-marker recovery succeeds, it
returns the directory of the key joined with the title's stem cut by the
Python slice `[: 90 - len(dir) - len(ext) - 1]` (unclamped, as the source
computes it), followed by the recovered numbering marker and the title's
extension; when the marker recovery faults the function fails instead. -/
theorem fix_truncated_name_spec (f : FName) (md : TakeoutMetadata)
    (title : FName) (h : md.title = some title) :
    ((basename f = title ∨ f.length < 85) → fix_truncated_name f md = some f)
  ∧ (basename f ≠ title → 85 ≤ f.length →
      ∀ num, extract_number_from_filename f = some num →
        fix_truncated_name f md = some (pathJoin (dirname f)
          (pySliceTo (splitext title).1
              ((90 : Int) - (dirname f).length - (splitext title).2.length - 1)
            ++ num ++ (splitext title).2))) := by
  constructor
  · intro hc
    simp only [fix_truncated_name, h]
    rw [if_neg]
    rintro ⟨hne, hlen⟩
    cases hc with
    | inl hbe => exact hne hbe
    | inr hlt => omega
  · intro hne hlen num hnum
    simp only [fix_truncated_name, h]
    rw [if_pos ⟨hne, hlen⟩, hnum]

/-- C5 (witness): the amended rebuild clause applied to the repository's own
truncation test vector. -/
theorem fix_truncated_name_spec_witness :
    fix_truncated_name
      (s2l "Takeout/Google Photos/Photos from 2023/story_image_v2_336d088f-fbe5-43a1-b765-58c29b9")
      ⟨some (s2l "story_image_v2_336d088f-fbe5-43a1-b765-58c29b9a5b2f_640_wide.jpg"),
        none, none, none, none⟩ =
    some (s2l "Takeout/Google Photos/Photos from 2023/story_image_v2_336d088f-fbe5-43a1-b765-58c29b9a.jpg") := by
  rw [(fix_truncated_name_spec
    (s2l "Takeout/Google Photos/Photos from 2023/story_image_v2_336d088f-fbe5-43a1-b765-58c29b9")
    ⟨some (s2l "story_image_v2_336d088f-fbe5-43a1-b765-58c29b9a5b2f_640_wide.jpg"),
      none, none, none, none⟩
    (s2l "story_image_v2_336d088f-fbe5-43a1-b765-58c29b9a5b2f_640_wide.jpg")
    rfl).2 (by decide) (by decide) [] (by decide)]
  decide

/-- C10: sidecar geo extraction decides availability by the latitude field
alone: the pair from `geoData` exactly when it is present with non-zero
latitude, else the pair from `geoDataExif` exactly when it is present with
non-zero latitude, else nothing — so zero latitude yields no coordinates
from a record even when its longitude is non-zero. -/
theorem metadata_gps_latitude_decides (md : TakeoutMetadata) :
    (∀ g, md.geoData = some g → g.latitude ≠ 0 →
      metadata_gps md = some (g.latitude, g.longitude))
  ∧ ((∀ g, md.geoData = some g → g.latitude = 0) →
      ∀ g2, md.geoDataExif = some g2 → g2.latitude ≠ 0 →
      metadata_gps md = some (g2.latitude, g2.longitude))
  ∧ ((∀ g, md.geoData = some g → g.latitude = 0) →
      (∀ g2, md.geoDataExif = some g2 → g2.latitude = 0) →
      metadata_gps md = none) := by
  refine ⟨?_, ?_, ?_⟩
  · intro g hg hlat
    simp only [metadata_gps, hg]
    rw [if_pos hlat]
  · intro hz g2 hg2 hlat
    cases hge : md.geoData with
    | none =>
      simp only [metadata_gps, hge, hg2]
      rw [if_pos hlat]
    | some g =>
      have hg0 := hz g hge
      simp only [metadata_gps, hge, hg2]
      rw [if_neg (by simp [hg0]), if_pos hlat]
  · intro hz hz2
    cases hge : md.geoData with
    | none =>
      cases hge2 : md.geoDataExif with
      | none => simp only [metadata_gps, hge, hge2]
      | some g2 =>
        have hg0 := hz2 g2 hge2
        simp only [metadata_gps, hge, hge2]
        rw [if_neg (by simp [hg0])]
    | some g =>
      have hg0 := hz g hge
      cases hge2 : md.geoDataExif with
      | none =>
        simp only [metadata_gps, hge, hge2]
        rw [if_neg (by simp [hg0])]
      | some g2 =>
        have hg20 := hz2 g2 hge2
        simp only [metadata_gps, hge, hge2]
        rw [if_neg (by simp [hg0]), if_neg (by simp [hg20])]

/-- C10 (witness): a record whose `geoData` has latitude 0 and longitude 5
and no `geoDataExif` yields no coordinates. -/
theorem metadata_gps_latitude_decides_witness :
    metadata_gps ⟨none, none, some ⟨0, 5⟩, none, none⟩ = none :=
  (metadata_gps_latitude_decides ⟨none, none, some ⟨0, 5⟩, none, none⟩).2.2
    (fun g hg => by rw [← Option.some.inj hg])
    (fun g2 hg2 => Option.noConfusion hg2)

/-- C7: when the embedded time is aware and denotes exactly the instant of
the (aware) sidecar time, the reconciler reports no correction and returns
the embedded time unchanged. -/
theorem check_timestamp_exif_same_instant {G Z : Type}
    (find_tz : G → Option Z) (astz : Z → PyDateTime → PyDateTime)
    (et mt : PyDateTime) (gps : Option G)
    (h1 : et.off.isSome = true) (h2 : mt.off.isSome = true)
    (h3 : instant et = instant mt) :
    check_timestamp_exif find_tz astz (some et) gps mt = (false, some et) := by
  obtain ⟨o1, ho1⟩ := Option.isSome_iff_exists.mp h1
  obtain ⟨o2, ho2⟩ := Option.isSome_iff_exists.mp h2
  have heq : pyEq et mt = true := by
    unfold pyEq
    rw [ho1, ho2]
    simp [h3]
  simp only [check_timestamp_exif, pyNeOpt, heq]
  simp

/-- C7 (witness): the repository's own reconciler vector — embedded
`2022:12:19 15:05:31` at offset `+11:00` against sidecar
`2022-12-19 04:05:31+00:00` is the same instant, is not corrected, and is
returned unchanged. -/
theorem check_timestamp_exif_same_instant_witness :
    check_timestamp_exif (fun _ : Unit => (none : Option Unit))
      (fun _ d => d)
      (some ⟨civilSecs 2022 12 19 15 5 31, some 660⟩)
      (none : Option Unit)
      ⟨civilSecs 2022 12 19 4 5 31, some 0⟩ =
      (false, some ⟨civilSecs 2022 12 19 15 5 31, some 660⟩) :=
  check_timestamp_exif_same_instant (fun _ : Unit => (none : Option Unit))
    (fun _ d => d) ⟨civilSecs 2022 12 19 15 5 31, some 660⟩
    ⟨civilSecs 2022 12 19 4 5 31, some 0⟩ (none : Option Unit)
    (by decide) (by decide) (by decide)

/-- Helper: the reconciler's branch 3 — naive embedded time within twelve
hours of the aware sidecar time goes through `calculate_timezone`. -/
theorem check_timestamp_branch3 {G Z : Type}
    (find_tz : G → Option Z) (astz : Z → PyDateTime → PyDateTime)
    (et mt : PyDateTime) (gps : Option G)
    (h1 : et.off = none) (o2 : Int) (ho2 : mt.off = some o2)
    (h3 : (et.wall - instant mt).natAbs ≤ 43200) :
    check_timestamp_exif find_tz astz (some et) gps mt =
      (true, some (calculate_timezone (utcLocalize et) mt)) := by
  have hinst : instant (utcLocalize et) = et.wall := by
    simp [instant, utcLocalize]
  simp only [check_timestamp_exif, pyNeOpt, pyEq, h1, ho2]
  simp only [Bool.not_false]
  simp [hinst, h3]

/-- C2: for an embedded time with no UTC offset whose distance from the
(aware) sidecar time, treating the embedded wall clock as UTC, is at most
12 hours, the reconciler reports a correction and returns the naive embedded
wall clock with the fixed offset `floor(0) - floor((sidecar minus
embedded-as-UTC) in minutes)` attached. -/
theorem check_timestamp_exif_no_offset_small_gap {G Z : Type}
    (find_tz : G → Option Z) (astz : Z → PyDateTime → PyDateTime)
    (et mt : PyDateTime) (gps : Option G)
    (h1 : et.off = none) (h2 : mt.off.isSome = true)
    (h3 : (et.wall - instant mt).natAbs ≤ 43200) :
    check_timestamp_exif find_tz astz (some et) gps mt =
      (true, some (PyDateTime.mk et.wall
        (some (0 - Int.fdiv (instant mt - et.wall) 60)))) := by
  obtain ⟨o2, ho2⟩ := Option.isSome_iff_exists.mp h2
  rw [check_timestamp_branch3 find_tz astz et mt gps h1 o2 ho2 h3]
  unfold calculate_timezone utcLocalize
  simp [instant]

/-- C2 (witness): the repository's own reconciler vector — embedded
`2018:09:23 17:42:21` with no offset against sidecar
`2018-09-23 21:42:21+00:00` is corrected to `2018-09-23 17:42:21-04:00`
(offset -240 minutes). -/
theorem check_timestamp_exif_no_offset_small_gap_witness :
    check_timestamp_exif (fun _ : Unit => (none : Option Unit))
      (fun _ d => d)
      (some ⟨civilSecs 2018 9 23 17 42 21, none⟩)
      (none : Option Unit)
      ⟨civilSecs 2018 9 23 21 42 21, some 0⟩ =
      (true, some ⟨civilSecs 2018 9 23 17 42 21, some (-240)⟩) := by
  rw [check_timestamp_exif_no_offset_small_gap
    (fun _ : Unit => (none : Option Unit)) (fun _ d => d)
    ⟨civilSecs 2018 9 23 17 42 21, none⟩
    ⟨civilSecs 2018 9 23 21 42 21, some 0⟩ (none : Option Unit)
    rfl (by decide) (by decide)]
  decide

/-- C8 (counterexample): normalisation is not idempotent.  The raw media
name `a.json(1)` normalises to the canonical key `a(1).json` with
`is-metadata = false`, but normalising that key strips `.json` again and
yields `(a(1), true)` — not the key unchanged with `is-metadata = false`. -/
theorem normalise_filename_not_idempotent :
    normalise_filename (s2l "a.json(1)") = some (s2l "a(1).json", false) ∧
    normalise_filename (s2l "a(1).json") = some (s2l "a(1)", true) ∧
    normalise_filename (s2l "a(1).json") ≠ some (s2l "a(1).json", false) := by
  decide

/-- C8 (amended): normalisation is idempotent — it returns its input
unchanged with `is-metadata = false` — on every canonical key that does not
end in `.json` and that, if it ends in a closing parenthesis, splits at its
last opening parenthesis into a base carrying no extension. -/
theorem normalise_filename_idempotent (k : FName)
    (h1 : endsW (s2l ".json") k = false)
    (h2 : endsW (s2l ")") k = true →
      ∃ b r, rsplitParen k = some (b, r) ∧ splitext b = (b, [])) :
    normalise_filename k = some (k, false) := by
  simp only [normalise_filename, h1, Bool.false_eq_true, if_false]
  by_cases he : endsW (s2l ")") k = true
  · obtain ⟨b, r, hbr, hsp⟩ := h2 he
    have hk := rsplitParen_reconstruct k b r hbr
    simp only [he, hbr, hsp]
    simp [hk]
  · simp [he]

/-- C8 (witness): the amended idempotency applied to the canonical key
`ajpg(1)`, which ends in a closing parenthesis with an extensionless base. -/
theorem normalise_filename_idempotent_witness :
    normalise_filename (s2l "ajpg(1)") = some (s2l "ajpg(1)", false) :=
  normalise_filename_idempotent (s2l "ajpg(1)") (by decide)
    (fun _ => ⟨s2l "ajpg", s2l "1)", by decide, by decide⟩)

/-- C3 (counterexample): a second sidecar record arriving for the key
`a.jpg`, which is still pending with an earlier record, silently replaces
the pending record: the step succeeds (no abort) with the new record stored
and the report log unchanged — no warning is surfaced to the reporting
collaborator. -/
theorem duplicate_metadata_no_warning :
    processEntry [] (s2l "t1")
      ⟨[(s2l "a.jpg", ⟨⟨some (s2l "a.jpg"), some 1, none, none, none⟩,
          s2l "t0", s2l "a.jpg"⟩)], [], [], [], []⟩
      ⟨s2l "a.jpg.json", some ⟨some (s2l "a.jpg"), some 2, none, none, none⟩⟩ =
      some ⟨[(s2l "a.jpg", ⟨⟨some (s2l "a.jpg"), some 2, none, none, none⟩,
          s2l "t1", s2l "a.jpg"⟩)], [], [], [], []⟩ := by
  decide

/-- C3 (amended): when a metadata entry's final canonical key is already
bound to a pending record and the entry triggers no join, the step replaces
the pending record in place with the new one, makes no call to the
reporting collaborator, and does not abort. -/
theorem duplicate_metadata_overwrites (skip : List FName) (tar_name : FName)
    (st : MatchState) (e : TarEntry) (data : TakeoutMetadata) (k0 k : FName)
    (h1 : normalise_filename e.name = some (k0, true))
    (h2 : ¬ (k0 ∈ skip ∨ endsW (s2l "archive_browser.html") k0 = true))
    (h3 : e.payload = some data)
    (h4 : fix_truncated_name k0 data = some k)
    (h5 : dcontains st.metadata k = true)
    (h6 : match_files true k st.tar_infos
        (dictInsert st.metadata k ⟨data, tar_name, k⟩) = (none, none)) :
    (∃ old, dlookup st.metadata k = some old) ∧
    processEntry skip tar_name st e =
      some { st with metadata := dictInsert st.metadata k ⟨data, tar_name, k⟩ } ∧
    dlookup (dictInsert st.metadata k ⟨data, tar_name, k⟩) k =
      some ⟨data, tar_name, k⟩ := by
  refine ⟨Option.isSome_iff_exists.mp h5, ?_, dlookup_dictInsert_self _ _ _⟩
  simp only [processEntry, h1]
  rw [if_neg h2]
  simp only [storePhase, h3, h4, if_pos rfl, if_true, h6]

/-- C3 (witness): the amended statement applied to a concrete duplicate
arrival. -/
theorem duplicate_metadata_overwrites_witness :
    processEntry [] (s2l "t1")
      ⟨[(s2l "b.jpg", ⟨⟨some (s2l "b.jpg"), some 7, none, none, none⟩,
          s2l "t0", s2l "b.jpg"⟩)], [], [], [], []⟩
      ⟨s2l "b.jpg.json", some ⟨some (s2l "b.jpg"), some 8, none, none, none⟩⟩ =
      some ⟨[(s2l "b.jpg", ⟨⟨some (s2l "b.jpg"), some 8, none, none, none⟩,
          s2l "t1", s2l "b.jpg"⟩)], [], [], [], []⟩ ∧
    dlookup [(s2l "b.jpg", (⟨⟨some (s2l "b.jpg"), some 8, none, none, none⟩,
        s2l "t1", s2l "b.jpg"⟩ : StoredMeta))] (s2l "b.jpg") =
      some ⟨⟨some (s2l "b.jpg"), some 8, none, none, none⟩, s2l "t1", s2l "b.jpg"⟩ :=
  And.right <|
  duplicate_metadata_overwrites [] (s2l "t1")
    ⟨[(s2l "b.jpg", ⟨⟨some (s2l "b.jpg"), some 7, none, none, none⟩,
        s2l "t0", s2l "b.jpg"⟩)], [], [], [], []⟩
    ⟨s2l "b.jpg.json", some ⟨some (s2l "b.jpg"), some 8, none, none, none⟩⟩
    ⟨some (s2l "b.jpg"), some 8, none, none, none⟩ (s2l "b.jpg") (s2l "b.jpg")
    (by decide) (by decide) rfl (by decide) (by decide) (by decide)

theorem storePhase_emitted {st : MatchState} {t : FName} {e : TarEntry}
    {fn fn1 : FName} {w : Bool} {st1 : MatchState}
    (h : storePhase st t e fn w = some (st1, fn1)) :
    st1.emitted = st.emitted := by
  unfold storePhase at h
  by_cases hw : w = true
  · rw [if_pos hw] at h
    cases hp : e.payload with
    | none =>
      simp only [hp] at h
      exact Option.noConfusion h
    | some data =>
      simp only [hp] at h
      cases hf : fix_truncated_name fn data with
      | none =>
        simp only [hf] at h
        exact Option.noConfusion h
      | some fn2 =>
        simp only [hf] at h
        have hpair := Option.some.inj h
        have h1 := (Prod.mk.inj hpair).1
        rw [← h1]
  · rw [if_neg hw] at h
    have hpair := Option.some.inj h
    have h1 := (Prod.mk.inj hpair).1
    rw [← h1]

theorem joinPhase_char {st1 : MatchState} {fn1 : FName} {tv : TarInfoVal}
    {md : StoredMeta} {stf : MatchState}
    (h : joinPhase st1 fn1 tv md = some stf) :
    stf.emitted = st1.emitted ++ [⟨md, tv.entry.name, tv.tarName⟩] ∧
    dlookup stf.tar_infos tv.entry.name = none ∧
    dlookup stf.metadata md.metadata_filename = none := by
  simp only [joinPhase] at h
  cases h1 : pyDel st1.tar_infos tv.entry.name with
  | none =>
    simp only [h1] at h
    exact Option.noConfusion h
  | some ti2 =>
    simp only [h1] at h
    cases h2 : pyDel st1.metadata md.metadata_filename with
    | none =>
      simp only [h2] at h
      exact Option.noConfusion h
    | some md2 =>
      simp only [h2] at h
      have hst := (Option.some.inj h).symm
      subst hst
      refine ⟨rfl, ?_, ?_⟩
      · rw [pyDel_some_eq h1]
        exact dlookup_filterOut_self _ _
      · rw [pyDel_some_eq h2]
        exact dlookup_filterOut_self _ _

/-- C1 (amended): whenever one loop iteration of the streaming matcher
completes without an uncaught error and emits a MatchedAsset, then
immediately afterwards the raw archive name of the joined media entry is
absent from PendingFiles and the stored key of the joined metadata record is
absent from PendingMetadata (these are the keys the source deletes; when a
deletion key is missing the iteration aborts with a `KeyError` instead).  A
key may be joined into further MatchedAssets later in the run if both of its
sides reappear in the stream. -/
theorem extract_metadata_join_removes_both (skip : List FName)
    (tar_name : FName) (st : MatchState) (e : TarEntry) (stf : MatchState)
    (lf : MatchedFile)
    (h : processEntry skip tar_name st e = some stf)
    (hlf : stf.emitted = st.emitted ++ [lf]) :
    dlookup stf.tar_infos lf.tarinfo_name = none ∧
    dlookup stf.metadata lf.takeout_metadata.metadata_filename = none := by
  cases hn : normalise_filename e.name with
  | none =>
    rw [processEntry, hn] at h
    exact Option.noConfusion h
  | some p =>
    obtain ⟨fn, w⟩ := p
    simp only [processEntry, hn] at h
    by_cases hskip : fn ∈ skip ∨ endsW (s2l "archive_browser.html") fn = true
    · rw [if_pos hskip] at h
      have hst := (Option.some.inj h).symm
      subst hst
      have hlen := congrArg List.length hlf
      simp at hlen
    · rw [if_neg hskip] at h
      cases hsp : storePhase st tar_name e fn w with
      | none =>
        simp only [hsp] at h
        exact Option.noConfusion h
      | some q =>
        obtain ⟨st1, fn1⟩ := q
        simp only [hsp] at h
        have hem1 : st1.emitted = st.emitted := storePhase_emitted hsp
        rcases hmv : match_files w fn1 st1.tar_infos st1.metadata with ⟨o1, o2⟩
        simp only [hmv] at h
        cases o1 with
        | none =>
          have hst := (Option.some.inj h).symm
          subst hst
          rw [hem1] at hlf
          have hlen := congrArg List.length hlf
          simp at hlen
        | some tv =>
          cases o2 with
          | none =>
            have hst := (Option.some.inj h).symm
            subst hst
            rw [hem1] at hlf
            have hlen := congrArg List.length hlf
            simp at hlen
          | some md =>
            obtain ⟨hem, hti, hmd⟩ := joinPhase_char h
            rw [hem, hem1] at hlf
            have hlf2 : ([⟨md, tv.entry.name, tv.tarName⟩] : List MatchedFile)
                = [lf] := List.append_cancel_left hlf
            have hlf3 : lf = ⟨md, tv.entry.name, tv.tarName⟩ :=
              (List.cons.inj hlf2).1.symm
            rw [hlf3]
            exact ⟨hti, hmd⟩

/-- C1 (counterexample): the matched-key set is never consulted when
joining, so a stream in which both sides of the key `a.jpg` appear twice
joins and emits that key twice in one run. -/
theorem extract_metadata_key_joined_twice :
    (runMatcher [] [(s2l "takeout-1.tgz",
        [⟨s2l "a.jpg", none⟩,
         ⟨s2l "a.jpg.json", some ⟨some (s2l "a.jpg"), none, none, none, none⟩⟩,
         ⟨s2l "a.jpg", none⟩,
         ⟨s2l "a.jpg.json", some ⟨some (s2l "a.jpg"), none, none, none, none⟩⟩])]).map
      (fun st => st.emitted.map (fun lf => lf.takeout_metadata.metadata_filename)) =
    some [s2l "a.jpg", s2l "a.jpg"] := by
  decide

/-- C1 (witness): the amended removal statement applied to a concrete
join — after the metadata side of `a.jpg` completes the pair, both pending
maps are empty at that key. -/
theorem extract_metadata_join_removes_both_witness :
    dlookup ([] : Dict TarInfoVal) (s2l "a.jpg") = none ∧
    dlookup ([] : Dict StoredMeta) (s2l "a.jpg") = none :=
  extract_metadata_join_removes_both [] (s2l "t")
    ⟨[], [], [(s2l "a.jpg", ⟨s2l "t", ⟨s2l "a.jpg", none⟩⟩)], [], []⟩
    ⟨s2l "a.jpg.json", some ⟨some (s2l "a.jpg"), none, none, none, none⟩⟩
    ⟨[], [s2l "a.jpg"], [],
      [⟨⟨⟨some (s2l "a.jpg"), none, none, none, none⟩, s2l "t", s2l "a.jpg"⟩,
        s2l "a.jpg", s2l "t"⟩],
      [ReportEvent.matched
        ⟨⟨⟨some (s2l "a.jpg"), none, none, none, none⟩, s2l "t", s2l "a.jpg"⟩,
          s2l "a.jpg", s2l "t"⟩]⟩
    ⟨⟨⟨some (s2l "a.jpg"), none, none, none, none⟩, s2l "t", s2l "a.jpg"⟩,
      s2l "a.jpg", s2l "t"⟩
    (by decide) (by decide)

theorem process_one_partner_char {Z : Type} (find_tz : Rat × Rat → Option Z)
    (astz : Z → PyDateTime → PyDateTime) (exif_load : PFile → Option ExifView)
    (item : PFile) (fs : List PFile) (es : List PEvent)
    (h : process_one find_tz astz exif_load item = some (fs, es)) :
    (∀ f ∈ fs, f.takeout_metadata = item.takeout_metadata) ∧
    (is_from_partner_sharing item.takeout_metadata = true →
      fs = [] ∧ PEvent.partnerSharing item ∈ es) := by
  simp only [process_one] at h
  by_cases hp : is_from_partner_sharing item.takeout_metadata = true
  · rw [if_pos hp] at h
    have hpair := Prod.mk.inj (Option.some.inj h)
    refine ⟨?_, fun _ => ⟨hpair.1.symm, ?_⟩⟩
    · intro f hf
      rw [← hpair.1] at hf
      cases hf
    · rw [← hpair.2]
      exact List.mem_cons_self _ _
  · rw [if_neg hp] at h
    refine ⟨?_, fun hq => absurd hq hp⟩
    by_cases hext : lowerL (file_extension item) ∉ [s2l ".jpeg", s2l ".jpg"]
    · rw [if_pos hext] at h
      by_cases hvt : lowerL (file_extension item) ∈ [s2l ".vob", s2l ".thm"]
      · rw [if_pos hvt] at h
        have hpair := Prod.mk.inj (Option.some.inj h)
        intro f hf
        rw [← hpair.1] at hf
        cases hf
      · rw [if_neg hvt] at h
        cases hmt : metadata_original_timestamp item.takeout_metadata with
        | none =>
          simp only [hmt] at h
          exact Option.noConfusion h
        | some mt =>
          simp only [hmt] at h
          have hpair := Prod.mk.inj (Option.some.inj h)
          intro f hf
          rw [← hpair.1] at hf
          have hfe : f = (if pyNeOpt (some mt) item.last_modified = true
              then { item with timestamp_differs := true } else item) := by
            cases hf with
            | head => rfl
            | tail _ hh => cases hh
          rw [hfe]
          split <;> rfl
    · rw [if_neg hext] at h
      cases hel : exif_load item with
      | none =>
        simp only [hel] at h
        have hpair := Prod.mk.inj (Option.some.inj h)
        intro f hf
        rw [← hpair.1] at hf
        have hfe : f = item := by
          cases hf with
          | head => rfl
          | tail _ hh => cases hh
        rw [hfe]
      | some ev =>
        simp only [hel] at h
        cases hmt : metadata_original_timestamp item.takeout_metadata with
        | none =>
          simp only [hmt] at h
          exact Option.noConfusion h
        | some mt =>
          simp only [hmt] at h
          cases hck : check_timestamp_exif find_tz astz ev.date
              ((metadata_gps item.takeout_metadata).orElse (fun _ => ev.gps))
              mt with
          | mk differs nt =>
            cases nt with
            | none =>
              simp only [hck] at h
              exact Option.noConfusion h
            | some new_timestamp =>
              simp only [hck] at h
              have hpair := Prod.mk.inj (Option.some.inj h)
              intro f hf
              rw [← hpair.1] at hf
              have hfe : f = { item with
                  gps := (metadata_gps item.takeout_metadata).orElse
                    (fun _ => ev.gps)
                  exif_original_time := ev.date
                  original_time := some new_timestamp
                  timestamp_differs := differs } := by
                cases hf with
                | head => rfl
                | tail _ hh => cases hh
              rw [hfe]

theorem process_fold_char {Z : Type} (find_tz : Rat × Rat → Option Z)
    (astz : Z → PyDateTime → PyDateTime)
    (exif_load : PFile → Option ExifView) :
    ∀ (items : List PFile) (acc : List PFile × List PEvent)
      (out : List PFile) (evs : List PEvent),
      List.foldlM (fun acc it => (process_one find_tz astz exif_load it).map
        (fun r => (acc.1 ++ r.1, acc.2 ++ r.2))) acc items = some (out, evs) →
      (∀ f ∈ out, f ∈ acc.1 ∨
        is_from_partner_sharing f.takeout_metadata = false) ∧
      (∀ ev ∈ acc.2, ev ∈ evs) ∧
      (∀ f ∈ items, is_from_partner_sharing f.takeout_metadata = true →
        PEvent.partnerSharing f ∈ evs) := by
  intro items
  induction items with
  | nil =>
    intro acc out evs h
    simp only [List.foldlM_nil] at h
    have hpair := Prod.mk.inj (Option.some.inj h)
    refine ⟨?_, ?_, ?_⟩
    · intro f hf
      rw [← hpair.1] at hf
      exact Or.inl hf
    · intro ev hev
      rw [hpair.2] at hev
      exact hev
    · intro f hfm
      cases hfm
  | cons it rest ih =>
    intro acc out evs h
    rw [List.foldlM_cons] at h
    cases hone : process_one find_tz astz exif_load it with
    | none =>
      rw [hone] at h
      exact Option.noConfusion h
    | some r =>
      rw [hone] at h
      have hrest : List.foldlM (fun acc it =>
          (process_one find_tz astz exif_load it).map
            (fun r => (acc.1 ++ r.1, acc.2 ++ r.2)))
          (acc.1 ++ r.1, acc.2 ++ r.2) rest = some (out, evs) := h
      obtain ⟨ho, he, hi⟩ := ih (acc.1 ++ r.1, acc.2 ++ r.2) out evs hrest
      obtain ⟨hmeta, hpart⟩ :=
        process_one_partner_char find_tz astz exif_load it r.1 r.2
          (by rw [hone])
      have hemit_np : ∀ f ∈ r.1,
          is_from_partner_sharing f.takeout_metadata = false := by
        intro f hf
        by_cases hp : is_from_partner_sharing it.takeout_metadata = true
        · rw [(hpart hp).1] at hf
          cases hf
        · rw [hmeta f hf]
          revert hp
          cases is_from_partner_sharing it.takeout_metadata <;> simp
      refine ⟨?_, ?_, ?_⟩
      · intro f hf
        rcases ho f hf with hin | hnp
        · rcases List.mem_append.mp hin with h1 | h2
          · exact Or.inl h1
          · exact Or.inr (hemit_np f h2)
        · exact Or.inr hnp
      · intro ev hev
        exact he ev (List.mem_append_left _ hev)
      · intro f hfm hfp
        rcases List.mem_cons.mp hfm with heq | hmem
        · subst heq
          exact he _ (List.mem_append_right _ (hpart hfp).2)
        · exact hi f hmem hfp

/-- C9: a matched asset whose sidecar metadata carries the
`googlePhotosOrigin.fromPartnerSharing` key is never emitted downstream by
the processing stage — it is reported to the reporting collaborator and
skipped, regardless of its file type or timestamps. -/
theorem process_files_partner_sharing {Z : Type}
    (find_tz : Rat × Rat → Option Z) (astz : Z → PyDateTime → PyDateTime)
    (exif_load : PFile → Option ExifView) (items out : List PFile)
    (evs : List PEvent)
    (h : process_files find_tz astz exif_load items = some (out, evs)) :
    (∀ f ∈ out, is_from_partner_sharing f.takeout_metadata = false) ∧
    (∀ f ∈ items, is_from_partner_sharing f.takeout_metadata = true →
      PEvent.partnerSharing f ∈ evs) := by
  obtain ⟨ho, _, hi⟩ :=
    process_fold_char find_tz astz exif_load items ([], []) out evs h
  refine ⟨?_, hi⟩
  intro f hf
  rcases ho f hf with hin | hnp
  · cases hin
  · exact hnp

/-- C9 (witness): a concrete run on a single partner-shared asset emits
nothing and reports it. -/
theorem process_files_partner_sharing_witness :
    PEvent.partnerSharing
      ⟨⟨none, none, none, none, some ⟨true⟩⟩, s2l "a.jpg", ⟨0, some 0⟩,
        none, none, none, false⟩ ∈
      [PEvent.partnerSharing
        ⟨⟨none, none, none, none, some ⟨true⟩⟩, s2l "a.jpg", ⟨0, some 0⟩,
          none, none, none, false⟩] :=
  (process_files_partner_sharing (Z := Unit) (fun _ => none) (fun _ d => d)
    (fun _ => none)
    [⟨⟨none, none, none, none, some ⟨true⟩⟩, s2l "a.jpg", ⟨0, some 0⟩,
      none, none, none, false⟩]
    []
    [PEvent.partnerSharing
      ⟨⟨none, none, none, none, some ⟨true⟩⟩, s2l "a.jpg", ⟨0, some 0⟩,
        none, none, none, false⟩]
    (by decide)).2
    ⟨⟨none, none, none, none, some ⟨true⟩⟩, s2l "a.jpg", ⟨0, some 0⟩,
      none, none, none, false⟩
    (List.mem_cons_self _ _) rfl

end ImmichTakeout